import Mathlib

/-!
# Verification of the extractive sentence checker (`app.py`)

A shallow embedding of the core logic of the repository's single source file:
Python strings are modelled as `List Char`, Python dicts built by the code
(whose keys are pairwise distinct) as association lists with first-match
lookup, pandas cells as the strings `str(cell)` produces (a missing/NaN cell
reads as `"nan"`), and the ordered paragraph sequence that `python-docx`
extracts from a document as a `List (List Char)` of paragraph texts.
`difflib.SequenceMatcher` (stdlib, called with `isjunk=None, autojunk=False`,
so all junk handling is inert) is embedded by translating its
`find_longest_match` / `get_matching_blocks` / `get_opcodes` algorithms.
-/

namespace QACheck

/-- Python strings are modelled as lists of characters. -/
abbrev Str := List Char

/-! ## Python string primitives -/

/-- The whitespace test used by `str.strip()` (ASCII whitespace). -/
def isWS (c : Char) : Bool := c == ' ' || c == '\t' || c == '\r' || c == '\n'

/-- Remove trailing whitespace. -/
def rstripWS (s : Str) : Str := (s.reverse.dropWhile isWS).reverse

/-- Python `str.strip()`: remove leading and trailing whitespace. -/
def strip (s : Str) : Str := rstripWS (s.dropWhile isWS)

/-- Python `str.lower()` (ASCII case folding suffices for the `'nan'` test). -/
def lowerStr (s : Str) : Str := s.map Char.toLower

/-- Does `pre` occur at the start of `s`?  (Python slice comparison.) -/
def prefB : Str → Str → Bool
  | [], _ => true
  | _ :: _, [] => false
  | a :: as, b :: bs => a == b && prefB as bs

/-- Python `needle in hay`: substring containment. -/
def substrB (needle : Str) : Str → Bool
  | [] => needle.isEmpty
  | c :: rest => prefB needle (c :: rest) || substrB needle rest

/-- Helper for `splitOnSep`; `acc` holds the current piece reversed.  The
fuel argument (instantiated with the string's length, which strictly drops
at every step) keeps the recursion structural so that it evaluates inside
the kernel. -/
def splitAux (sep : Str) : Nat → Str → Str → List Str
  | _, [], acc => [acc.reverse]
  | 0, s, acc => [acc.reverse ++ s]
  | fuel + 1, c :: rest, acc =>
      if sep ≠ [] ∧ prefB sep (c :: rest) then
        acc.reverse :: splitAux sep fuel (List.drop sep.length (c :: rest)) []
      else
        splitAux sep fuel rest (c :: acc)

/-- Python `s.split(sep)` for a non-empty separator. -/
def splitOnSep (sep s : Str) : List Str := splitAux sep s.length s []

/-- Python `" ".join(texts)`. -/
def joinSp : List Str → Str
  | [] => []
  | [t] => t
  | t :: rest => t ++ ' ' :: joinSp rest

/-! ## Decimal rendering and parsing of numbers

`int(digits)` on a digit string, and the decimal rendering that Python
f-strings perform on an `int`. -/

/-- Value of a decimal digit string (Python `int(...)` on digits). -/
def digitsToNat (ds : Str) : Nat :=
  ds.foldl (fun acc c => acc * 10 + (c.toNat - 48)) 0

/-- The character for a single decimal digit. -/
def digitChar (d : Nat) : Char := Char.ofNat (48 + d)

/-- Fuel-based body of `natToDec` (the fuel, instantiated with `n` itself,
dominates the number of divisions by 10 and keeps the recursion
structural). -/
def natToDecAux : Nat → Nat → Str
  | 0, n => [digitChar n]
  | fuel + 1, n =>
      if n < 10 then [digitChar n] else natToDecAux fuel (n / 10) ++ [digitChar (n % 10)]

/-- Decimal rendering of a natural number (Python `f"{n}"`). -/
def natToDec (n : Nat) : Str := natToDecAux n n

theorem natToDecAux_fuel :
    ∀ fuel₁ fuel₂ n, n ≤ fuel₁ → n ≤ fuel₂ →
      natToDecAux fuel₁ n = natToDecAux fuel₂ n := by
  intro fuel₁
  induction fuel₁ with
  | zero =>
    intro fuel₂ n h1 _
    interval_cases n
    cases fuel₂ with
    | zero => rfl
    | succ f => simp [natToDecAux]
  | succ f₁ IH =>
    intro fuel₂ n h1 h2
    cases fuel₂ with
    | zero =>
      interval_cases n
      simp [natToDecAux]
    | succ f₂ =>
      simp only [natToDecAux]
      split

      · rfl
      · next h =>
        rw [IH f₂ (n / 10) (by omega) (by omega)]

/-- The recurrence that the Python-style rendering satisfies. -/
theorem natToDec_eq (n : Nat) :
    natToDec n = if n < 10 then [digitChar n] else natToDec (n / 10) ++ [digitChar (n % 10)] := by
  unfold natToDec
  cases n with
  | zero => simp [natToDecAux]
  | succ m =>
    simp only [natToDecAux]
    split
    · rfl
    · next h =>
      rw [natToDecAux_fuel m ((m + 1) / 10) ((m + 1) / 10) (by omega) (by omega)]

/-! ## `difflib.SequenceMatcher` (as used: `isjunk=None`, `autojunk=False`)

The Python object is constructed as `SequenceMatcher(None, a, b)` where both
junk mechanisms are disabled, so `isbjunk`/`isbpopular` are constantly false
and only the core longest-matching-block algorithm remains. -/

/-- `a[i] == b[j]`, false when either index is out of range (Python indexes
only in-range positions here). -/
def charAtEq (a b : Str) (i j : Nat) : Bool :=
  match a[i]?, b[j]? with
  | some x, some y => x == y
  | _, _ => false

/-- Whether position `j` of `b` survives the `blo ≤ j < bhi` window filter of
the inner loop of `find_longest_match` and matches `a[i]`. -/
def matchAt (a b : Str) (blo bhi i j : Nat) : Bool :=
  decide (blo ≤ j) && decide (j < bhi) && charAtEq a b i j

/-- The `j2len` chain lengths of `find_longest_match`: value of
`newj2len[j]` while processing row `i` (0 when `j` is not a key).  Row `i`
reads the previous row's entry at `j-1`, absent for `i = alo` or `j = 0`. -/
def jlen (a b : Str) (alo blo bhi : Nat) : Nat → Nat → Nat
  | 0, j => if matchAt a b blo bhi 0 j then 1 else 0
  | i + 1, j =>
      if matchAt a b blo bhi (i + 1) j then
        (if alo < i + 1 ∧ 0 < j then jlen a b alo blo bhi i (j - 1) else 0) + 1
      else 0

/-- The dictionary scan of `find_longest_match`: fold over `i ∈ [alo, ahi)`
and, for each, over the matching `j ∈ [blo, bhi)` in ascending order,
keeping the first-found longest block `(besti, bestj, bestsize)`. -/
def scanBest (a b : Str) (alo ahi blo bhi : Nat) : Nat × Nat × Nat :=
  (List.range' alo (ahi - alo)).foldl
    (fun best i =>
      ((List.range' blo (bhi - blo)).filter (fun j => matchAt a b blo bhi i j)).foldl
        (fun best j =>
          let k := jlen a b alo blo bhi i j
          if k > best.2.2 then (i + 1 - k, j + 1 - k, k) else best)
        best)
    (alo, blo, 0)

/-- First extension loop of `find_longest_match` (the junk-guarded twin is
inert): extend the block leftwards over equal characters. -/
def extendLeft (a b : Str) (alo blo : Nat) (i j k : Nat) : Nat × Nat × Nat :=
  if alo < i ∧ blo < j ∧ charAtEq a b (i - 1) (j - 1) then
    extendLeft a b alo blo (i - 1) (j - 1) (k + 1)
  else (i, j, k)
termination_by i
decreasing_by omega

/-- Second extension loop of `find_longest_match`: extend the block
rightwards over equal characters. -/
def extendRight (a b : Str) (ahi bhi : Nat) (i j k : Nat) : Nat :=
  if i + k < ahi ∧ j + k < bhi ∧ charAtEq a b (i + k) (j + k) then
    extendRight a b ahi bhi i j (k + 1)
  else k
termination_by ahi - k
decreasing_by omega

/-- `SequenceMatcher.find_longest_match(alo, ahi, blo, bhi)`. -/
def find_longest_match (a b : Str) (alo ahi blo bhi : Nat) : Nat × Nat × Nat :=
  match scanBest a b alo ahi blo bhi with
  | (i, j, k) =>
    match extendLeft a b alo blo i j k with
    | (i', j', k') => (i', j', extendRight a b ahi bhi i' j' k')

/-- Projection: `i` of the longest match. -/
def flmI (a b : Str) (alo ahi blo bhi : Nat) : Nat :=
  (find_longest_match a b alo ahi blo bhi).1

/-- Projection: `j` of the longest match. -/
def flmJ (a b : Str) (alo ahi blo bhi : Nat) : Nat :=
  (find_longest_match a b alo ahi blo bhi).2.1

/-- Projection: `size` of the longest match. -/
def flmK (a b : Str) (alo ahi blo bhi : Nat) : Nat :=
  (find_longest_match a b alo ahi blo bhi).2.2

/-- Invariant of the `(besti, bestj, bestsize)` state of
`find_longest_match`: the block stays inside the `[alo,ahi) × [blo,bhi)`
window (whenever it is non-trivial), and a trivial block still sits at the
window origin. -/
def scanInv (alo ahi blo bhi : Nat) (t : Nat × Nat × Nat) : Prop :=
  alo ≤ t.1 ∧ blo ≤ t.2.1 ∧
  (1 ≤ t.2.2 → t.1 + t.2.2 ≤ ahi ∧ t.2.1 + t.2.2 ≤ bhi) ∧
  (t.2.2 = 0 → t.1 = alo ∧ t.2.1 = blo)

theorem matchAt_true {a b : Str} {blo bhi i j : Nat}
    (h : matchAt a b blo bhi i j = true) : blo ≤ j ∧ j < bhi := by
  simp only [matchAt, Bool.and_eq_true, decide_eq_true_eq] at h
  exact ⟨h.1.1, h.1.2⟩

/-- The chain length stored at `(i, j)` is bounded by the distance of `i`
from `alo` and of `j` from `blo`. -/
theorem jlen_le (a b : Str) (alo blo bhi : Nat) :
    ∀ i j, alo ≤ i →
      jlen a b alo blo bhi i j + alo ≤ i + 1 ∧
      (1 ≤ jlen a b alo blo bhi i j →
        blo ≤ j ∧ jlen a b alo blo bhi i j + blo ≤ j + 1) := by
  intro i
  induction i with
  | zero =>
    intro j halo
    simp only [jlen]
    split
    · next hm => have := matchAt_true hm; omega
    · omega
  | succ i IH =>
    intro j halo
    simp only [jlen]
    split
    · next hm =>
      have hj := matchAt_true hm
      split
      · next hcond =>
        have hIH := IH (j - 1) (by omega)
        rcases Nat.eq_zero_or_pos (jlen a b alo blo bhi i (j - 1)) with h0 | h1
        · rw [h0]; omega
        · have := hIH.2 h1; omega
      · omega
    · omega

/-- A fold preserves any invariant its step function preserves. -/
theorem foldl_preserve {α : Type _} {β : Type _} (P : α → Prop) (f : α → β → α) :
    ∀ (l : List β) (init : α), P init →
      (∀ s x, x ∈ l → P s → P (f s x)) → P (l.foldl f init) := by
  intro l
  induction l with
  | nil => intro init h _; exact h
  | cons x xs IH =>
    intro init h hstep
    exact IH (f init x) (hstep init x (List.mem_cons_self x xs) h)
      (fun s y hy hs => hstep s y (List.mem_cons_of_mem x hy) hs)

theorem scanBest_inv (a b : Str) (alo ahi blo bhi : Nat) :
    scanInv alo ahi blo bhi (scanBest a b alo ahi blo bhi) := by
  unfold scanBest
  apply foldl_preserve (scanInv alo ahi blo bhi)
  · simp [scanInv]
  · intro s i hi hs
    have hi' : alo ≤ i ∧ i < alo + (ahi - alo) := List.mem_range'_1.mp hi
    apply foldl_preserve (scanInv alo ahi blo bhi)
    · exact hs
    · intro s' j hj hs'
      have hj' := (List.mem_filter.mp hj).2
      have hje := matchAt_true hj'
      simp only
      split
      · next hgt =>
        have hk := jlen_le a b alo blo bhi i j hi'.1
        have hk1 : 1 ≤ jlen a b alo blo bhi i j := by omega
        have hk2 := hk.2 hk1
        simp only [scanInv]
        refine ⟨by omega, by omega, fun _ => ⟨by omega, by omega⟩, fun h0 => by omega⟩
      · exact hs'

theorem extendLeft_inv (a b : Str) (alo ahi blo bhi : Nat) :
    ∀ i j k, scanInv alo ahi blo bhi (i, j, k) →
      scanInv alo ahi blo bhi (extendLeft a b alo blo i j k) := by
  intro i
  induction i using Nat.strong_induction_on with
  | _ i IH =>
    intro j k hs
    rw [extendLeft]
    split
    · next hg =>
      apply IH (i - 1) (by omega) (j - 1) (k + 1)
      simp only [scanInv] at hs ⊢
      rcases Nat.eq_zero_or_pos k with h0 | h1
      · have := hs.2.2.2 h0; omega
      · have := hs.2.2.1 h1; omega
    · exact hs

theorem extendRight_inv (a b : Str) (alo ahi blo bhi : Nat) :
    ∀ n i j k, ahi - k ≤ n → scanInv alo ahi blo bhi (i, j, k) →
      scanInv alo ahi blo bhi (i, j, extendRight a b ahi bhi i j k) := by
  intro n
  induction n with
  | zero =>
    intro i j k hn hs
    rw [extendRight]
    split
    · next hg => omega
    · exact hs
  | succ n IH =>
    intro i j k hn hs
    rw [extendRight]
    split
    · next hg =>
      apply IH i j (k + 1) (by omega)
      simp only [scanInv] at hs ⊢
      exact ⟨hs.1, hs.2.1, fun _ => ⟨by omega, by omega⟩, fun h0 => by omega⟩
    · exact hs

theorem flm_inv (a b : Str) (alo ahi blo bhi : Nat) :
    scanInv alo ahi blo bhi (find_longest_match a b alo ahi blo bhi) := by
  have h1 := scanBest_inv a b alo ahi blo bhi
  rcases hs : scanBest a b alo ahi blo bhi with ⟨i, j, k⟩
  rw [hs] at h1
  have h2 := extendLeft_inv a b alo ahi blo bhi i j k h1
  rcases he : extendLeft a b alo blo i j k with ⟨i', j', k'⟩
  rw [he] at h2
  have h3 := extendRight_inv a b alo ahi blo bhi (ahi - k') i' j' k' (Nat.le_refl _) h2
  simp only [find_longest_match, hs, he]
  exact h3

theorem flm_bounds (a b : Str) (alo ahi blo bhi : Nat)
    (h : flmK a b alo ahi blo bhi ≠ 0) :
    alo ≤ flmI a b alo ahi blo bhi ∧ blo ≤ flmJ a b alo ahi blo bhi ∧
    flmI a b alo ahi blo bhi + flmK a b alo ahi blo bhi ≤ ahi ∧
    flmJ a b alo ahi blo bhi + flmK a b alo ahi blo bhi ≤ bhi := by
  have hI := flm_inv a b alo ahi blo bhi
  simp only [scanInv] at hI
  simp only [flmI, flmJ, flmK] at h ⊢
  have h2 := hI.2.2.1 (by omega)
  exact ⟨hI.1, hI.2.1, h2.1, h2.2⟩

/-- `SequenceMatcher.get_matching_blocks`, recursive core.  The Python code
explores the same subwindow tree with an explicit LIFO queue and sorts the
collected blocks at the end; since every block of the left subwindow precedes
`(i, j, k)` and every block of the right subwindow follows it (the `i`
coordinates of distinct blocks are strictly ordered), the sorted list equals
this in-order traversal. -/
def matching_blocks_rec (a b : Str) (alo ahi blo bhi : Nat) : List (Nat × Nat × Nat) :=
  if hk : flmK a b alo ahi blo bhi = 0 then []
  else
    (if hl : alo < flmI a b alo ahi blo bhi ∧ blo < flmJ a b alo ahi blo bhi then
       matching_blocks_rec a b alo (flmI a b alo ahi blo bhi) blo (flmJ a b alo ahi blo bhi)
     else []) ++
    (flmI a b alo ahi blo bhi, flmJ a b alo ahi blo bhi, flmK a b alo ahi blo bhi) ::
    (if hr : flmI a b alo ahi blo bhi + flmK a b alo ahi blo bhi < ahi ∧
             flmJ a b alo ahi blo bhi + flmK a b alo ahi blo bhi < bhi then
       matching_blocks_rec a b (flmI a b alo ahi blo bhi + flmK a b alo ahi blo bhi) ahi
         (flmJ a b alo ahi blo bhi + flmK a b alo ahi blo bhi) bhi
     else [])
termination_by (ahi - alo) + (bhi - blo)
decreasing_by
  · have hb := flm_bounds a b alo ahi blo bhi hk
    omega
  · have hb := flm_bounds a b alo ahi blo bhi hk
    omega

/-- The merge pass at the end of `get_matching_blocks`: adjacent blocks are
coalesced, empty ones dropped; the accumulator starts at `(0, 0, 0)`. -/
def mergeAdjacent : Nat × Nat × Nat → List (Nat × Nat × Nat) → List (Nat × Nat × Nat)
  | (i1, j1, k1), [] => if k1 ≠ 0 then [(i1, j1, k1)] else []
  | (i1, j1, k1), (i2, j2, k2) :: rest =>
      if i1 + k1 = i2 ∧ j1 + k1 = j2 then mergeAdjacent (i1, j1, k1 + k2) rest
      else (if k1 ≠ 0 then [(i1, j1, k1)] else []) ++ mergeAdjacent (i2, j2, k2) rest

/-- `SequenceMatcher.get_matching_blocks()`, including the terminal sentinel
`(len(a), len(b), 0)`. -/
def get_matching_blocks (a b : Str) : List (Nat × Nat × Nat) :=
  mergeAdjacent (0, 0, 0) (matching_blocks_rec a b 0 a.length 0 b.length) ++
    [(a.length, b.length, 0)]

/-- Opcode tags of `SequenceMatcher.get_opcodes()`. -/
inductive Tag where
  | equal
  | replace
  | delete
  | insert
deriving DecidableEq, Repr

/-- The opcode-building loop of `get_opcodes`: `i`/`j` track the position
reached so far in `a`/`b`. -/
def opcodesFrom : Nat → Nat → List (Nat × Nat × Nat) → List (Tag × Nat × Nat × Nat × Nat)
  | _, _, [] => []
  | i, j, (ai, bj, size) :: rest =>
      (if i < ai ∧ j < bj then [(Tag.replace, i, ai, j, bj)]
       else if i < ai then [(Tag.delete, i, ai, j, bj)]
       else if j < bj then [(Tag.insert, i, ai, j, bj)]
       else []) ++
      (if size ≠ 0 then [(Tag.equal, ai, ai + size, bj, bj + size)] else []) ++
      opcodesFrom (ai + size) (bj + size) rest

/-- `SequenceMatcher(None, a, b).get_opcodes()` with `autojunk=False`. -/
def get_opcodes (a b : Str) : List (Tag × Nat × Nat × Nat × Nat) :=
  opcodesFrom 0 0 (get_matching_blocks a b)

/-- Python slice `s[j1:j2]`. -/
def sliceStr (s : Str) (j1 j2 : Nat) : Str := (s.drop j1).take (j2 - j1)

/-- The runs assembled by `get_highlighted_diff`: the loop walks the opcodes
of `SequenceMatcher(None, text2, text1)` (so `j` slices address `text1`) and
keeps `equal` slices unmarked (`false`) and `insert`/`replace` slices marked
(`true`); `delete` opcodes contribute nothing. -/
def highlight_runs (text1 text2 : Str) : List (Bool × Str) :=
  (get_opcodes text2 text1).filterMap (fun op =>
    match op with
    | (Tag.equal, _, _, j1, j2) => some (false, sliceStr text1 j1 j2)
    | (Tag.insert, _, _, j1, j2) => some (true, sliceStr text1 j1 j2)
    | (Tag.replace, _, _, j1, j2) => some (true, sliceStr text1 j1 j2)
    | (Tag.delete, _, _, _, _) => none)

/-- Opening HTML marker wrapped around a highlighted run. -/
def spanOpen : Str := "<span style=\"background-color: #fdd835;\">".toList

/-- Closing HTML marker. -/
def spanClose : Str := "</span>".toList

/-- `get_highlighted_diff(text1, text2)`: the joined HTML string. -/
def get_highlighted_diff (text1 text2 : Str) : Str :=
  ((highlight_runs text1 text2).map
    (fun r => if r.1 then spanOpen ++ r.2 ++ spanClose else r.2)).flatten

/-! ## Document Indexer (`parse_docx`)

The paragraph texts are the input; `python-docx` extraction of the container
format is outside the core.  Keys are the literal strings `f"L{n}:T{t}"`;
both dictionaries, whose insertion keys are pairwise distinct, are modelled
as association lists with first-match lookup. -/

/-- The key string `f"L{n}:T{t}"`. -/
def mkKey (n t : Nat) : Str := 'L' :: (natToDec n ++ ':' :: 'T' :: natToDec t)

/-- Loop body of `parse_docx`; `counter` is the number of paragraphs already
consumed (`true_line_number_counter`). -/
def parse_docxAux : List Str → Nat → List (Str × Str) × List (Nat × Str)
  | [], _ => ([], [])
  | p :: rest, counter =>
      let n := counter + 1
      let key := mkKey n (p.count '\t')
      let r := parse_docxAux rest n
      ((key, strip p) :: r.1, (n, key) :: r.2)

/-- `parse_docx`: returns `(doc_data, line_to_key_map)`. -/
def parse_docx (paras : List Str) : List (Str × Str) × List (Nat × Str) :=
  parse_docxAux paras 0

/-! ## Location Resolver (`parse_location_string`) -/

/-- `re.match(r"L(\d+):[TC]\d*", s)`: anchored at the start, trailing
characters unconstrained, the tab digits optional; returns the captured line
number.  The maximal digit run after `'L'` must be non-empty and be followed
by `':'` and then `'T'` or `'C'`. -/
def matchLocRegex (s : Str) : Option Nat :=
  match s with
  | 'L' :: rest =>
      let ds := rest.takeWhile Char.isDigit
      if ds.isEmpty then none
      else
        match rest.dropWhile Char.isDigit with
        | ':' :: c :: _ => if c == 'T' || c == 'C' then some (digitsToNat ds) else none
        | _ => none
  | _ => none

/-- The lookup-and-truthiness idiom `line_to_key_map.get(line_num)` followed
by `if key:` — `None` and the empty string are both falsy. -/
def truthyLookup (lmap : List (Nat × Str)) (n : Nat) : Option Str :=
  (lmap.lookup n).filter (fun k => !k.isEmpty)

/-- `parse_location_string(location_str, line_to_key_map)`. -/
def parse_location_string (location_str : Str) (lmap : List (Nat × Str)) : List Str :=
  let s := strip location_str
  if substrB " - ".toList s then
    match splitOnSep " - ".toList s with
    | [start_loc, end_loc] =>
        match matchLocRegex (strip start_loc), matchLocRegex (strip end_loc) with
        | some start_l, some end_l =>
            (List.range' start_l (end_l + 1 - start_l)).filterMap (truthyLookup lmap)
        | _, _ => []
    | _ => []
  else
    match matchLocRegex s with
    | some n => (truthyLookup lmap n).toList
    | none => []

/-! ## Row Checker (`run_checker`) -/

/-- `re.match(r"L(\d+):", original_key)`: the line number of a key string. -/
def keyLineNum (s : Str) : Option Nat :=
  match s with
  | 'L' :: rest =>
      let ds := rest.takeWhile Char.isDigit
      if ds.isEmpty then none
      else
        match rest.dropWhile Char.isDigit with
        | ':' :: _ => some (digitsToNat ds)
        | _ => none
  | _ => none

/-- `key.split(':')[0]` — the `"L<digits>"` part of a key. -/
def keyLinePart (k : Str) : Str := (splitOnSep [':'] k).headD []

/-- `int(key.split(':')[0][1:])` — defined on the generated keys, whose
digits make `int` total here. -/
def keyLineInt (k : Str) : Nat := digitsToNat ((keyLinePart k).drop 1)

/-- The single-point neighbourhood expansion of `run_checker` (lines
144–169): a reference that resolved to exactly one key is widened to every
key present at lines `max(1, n-5) … n+5`; anything else passes through. -/
def expandKeys (initial : List Str) (lmap : List (Nat × Str)) : List Str :=
  if initial.isEmpty then []
  else if initial.length = 1 then
    match keyLineNum (initial.headD []) with
    | some n =>
        (List.range' (max 1 (n - 5)) (n + 5 + 1 - max 1 (n - 5))).filterMap
          (truthyLookup lmap)
    | none => initial
  else initial

/-- One result record of `run_checker` (a Python dict; the two optional
fields are present only when assigned). -/
structure ResultItem where
  excel_row : Nat
  location : Str
  sentence : Str
  status : Str
  details : Str
  highlighted : Option Str := none
  doc_text : Option Str := none
deriving DecidableEq, Repr

/-- Status string of an unresolved location. -/
def errStatus : Str := "❌ Error".toList

/-- Status string of a verbatim match. -/
def okStatus : Str := "✅ Correct".toList

/-- Status string of a failed match. -/
def badStatus : Str := "❌ Incorrect".toList

/-- Detail string for an unresolved location. -/
def unresolvedDetails (location : Str) : Str :=
  "The specified location ".toList ++ location ++
  " could not be found or was in an invalid format. Please check line numbers and format (e.g., L21:T0, L24:C). Ensure the line number exists in the document.".toList

/-- The `actual_checked_range` display string. -/
def checkedRangeStr (expanded : List Str) : Str :=
  if expanded.length > 1 then
    " (Checked range: L".toList ++ natToDec (keyLineInt (expanded.headD [])) ++
    " - L".toList ++ natToDec (keyLineInt (expanded.getLastD [])) ++ ")".toList
  else
    " (Checked line: ".toList ++ keyLinePart (expanded.headD []) ++ ")".toList

/-- Detail string of a match. -/
def foundDetails (location rng : Str) : Str :=
  "The sentence was found exactly as stated in the document within the specified location ".toList
    ++ location ++ rng ++ ".".toList

/-- Detail string of a mismatch whose located content is blank. -/
def emptyDetails (location rng : Str) : Str :=
  "The sentence was **not** found in the specified location ".toList ++ location ++ rng ++
  ". The document content at this location appears to be empty.".toList

/-- Detail string of a mismatch with highlighting. -/
def mismatchDetails (location rng : Str) : Str :=
  "The sentence was **not** found in any single line within the specified location ".toList
    ++ location ++ rng ++
    ". Differences compared to the combined text from the range are highlighted below:".toList

/-- Lines 176–213 of `app.py`: evaluate one row whose expanded key list was
computed; fetches the located texts, tests per-block substring containment,
and assembles the result record. -/
def checkLocated (index : Nat) (sentence location : Str) (expanded : List Str)
    (doc_data : List (Str × Str)) : ResultItem :=
  let doc_texts := expanded.filterMap (fun k => doc_data.lookup k)
  let rng := checkedRangeStr expanded
  let is_found := doc_texts.any (fun t => substrB sentence t)
  if is_found then
    { excel_row := index + 2, location := location, sentence := sentence,
      status := okStatus, details := foundDetails location rng }
  else
    let full_doc_text := joinSp doc_texts
    if (strip full_doc_text).isEmpty then
      { excel_row := index + 2, location := location, sentence := sentence,
        status := badStatus, details := emptyDetails location rng }
    else
      { excel_row := index + 2, location := location, sentence := sentence,
        status := badStatus, details := mismatchDetails location rng,
        highlighted := some (get_highlighted_diff sentence full_doc_text),
        doc_text := some full_doc_text }

/-- Lines 133–213: build the result record for one non-skipped row. -/
def mkResult (index : Nat) (sentence location : Str)
    (doc_data : List (Str × Str)) (lmap : List (Nat × Str)) : ResultItem :=
  let initial := parse_location_string location lmap
  let expanded := expandKeys initial lmap
  if expanded.isEmpty then
    { excel_row := index + 2, location := location, sentence := sentence,
      status := errStatus, details := unresolvedDetails location }
  else
    checkLocated index sentence location expanded doc_data

/-- The skip test of lines 123–127: either field blank after stripping, or
equal to `"nan"` case-insensitively (`str(...)` of a pandas NaN). -/
def skipCond (cells : List Str) : Bool :=
  let sentence := strip (cells.getD 3 "nan".toList)
  let location := strip (cells.getD 5 "nan".toList)
  sentence.isEmpty || location.isEmpty ||
    lowerStr sentence == "nan".toList || lowerStr location == "nan".toList

/-- Process one spreadsheet row: skipped rows yield no record. -/
def processRow (index : Nat) (cells : List Str)
    (doc_data : List (Str × Str)) (lmap : List (Nat × Str)) : Option ResultItem :=
  if skipCond cells then none
  else
    some (mkResult index
      (strip (cells.getD 3 "nan".toList)) (strip (cells.getD 5 "nan".toList))
      doc_data lmap)

/-- `run_checker(df, doc_data, line_to_key_map)`: `ncols` is the number of
columns of the sheet (fewer than 6 aborts with `None`); each row's cells are
the `str(...)` renderings pandas would give, with absent cells reading
`"nan"`. -/
def run_checker (ncols : Nat) (rows : List (List Str))
    (doc_data : List (Str × Str)) (lmap : List (Nat × Str)) :
    Option (List ResultItem) :=
  if ncols < 6 then none
  else some (rows.enum.filterMap (fun p => processRow p.1 p.2 doc_data lmap))

/-! ## Lemmas: decimal rendering round-trips through parsing -/

theorem digitChar_isDigit {d : Nat} (h : d < 10) : (digitChar d).isDigit = true := by
  interval_cases d <;> decide

theorem digitChar_toNat {d : Nat} (h : d < 10) : (digitChar d).toNat = 48 + d := by
  interval_cases d <;> decide

theorem natToDec_ne_nil (n : Nat) : natToDec n ≠ [] := by
  rw [natToDec_eq]
  split
  · simp
  · simp

theorem natToDec_all_digits (n : Nat) : ∀ c ∈ natToDec n, c.isDigit = true := by
  induction n using Nat.strong_induction_on with
  | _ n IH =>
    rw [natToDec_eq]
    split
    · next h =>
      intro c hc
      rw [List.mem_singleton] at hc
      subst hc
      exact digitChar_isDigit h
    · next h =>
      intro c hc
      rcases List.mem_append.mp hc with h1 | h1
      · exact IH (n / 10) (Nat.div_lt_self (by omega) (by omega)) c h1
      · rw [List.mem_singleton] at h1
        subst h1
        exact digitChar_isDigit (Nat.mod_lt _ (by omega))

theorem digitsToNat_append_digit (ds : Str) (c : Char) :
    digitsToNat (ds ++ [c]) = 10 * digitsToNat ds + (c.toNat - 48) := by
  simp only [digitsToNat, List.foldl_append, List.foldl_cons, List.foldl_nil]
  omega

theorem digitsToNat_natToDec (n : Nat) : digitsToNat (natToDec n) = n := by
  induction n using Nat.strong_induction_on with
  | _ n IH =>
    rw [natToDec_eq]
    split
    · next h =>
      simp only [digitsToNat, List.foldl_cons, List.foldl_nil]
      rw [digitChar_toNat h]
      omega
    · next h =>
      rw [digitsToNat_append_digit, IH (n / 10) (Nat.div_lt_self (by omega) (by omega)),
        digitChar_toNat (Nat.mod_lt _ (by omega))]
      omega

/-! ## Lemmas: character classes -/

theorem isDigit_ne_of {c x : Char} (h : c.isDigit = true) (hx : x.isDigit = false) :
    c ≠ x := by
  intro he
  subst he
  rw [h] at hx
  exact absurd hx (by simp)

theorem isWS_of_isDigit {c : Char} (h : c.isDigit = true) : isWS c = false := by
  rcases hw : isWS c with _ | _
  · rfl
  · exfalso
    simp only [isWS, Bool.or_eq_true, beq_iff_eq] at hw
    rcases hw with ((h1 | h1) | h1) | h1 <;> (subst h1; exact absurd h (by decide))

/-! ## Lemmas: `takeWhile`/`dropWhile` over a digit run -/

theorem takeWhile_all_append {p : Char → Bool} :
    ∀ (xs : Str), (∀ c ∈ xs, p c = true) → ∀ (y : Char) (ys : Str), p y = false →
      (xs ++ y :: ys).takeWhile p = xs := by
  intro xs
  induction xs with
  | nil =>
    intro _ y ys hy
    simp [List.takeWhile_cons, hy]
  | cons a as IH =>
    intro hall y ys hy
    have ha : p a = true := hall a (List.mem_cons_self a as)
    have IH' := IH (fun c hc => hall c (List.mem_cons_of_mem a hc)) y ys hy
    simp [List.takeWhile_cons, ha, IH']

theorem dropWhile_all_append {p : Char → Bool} :
    ∀ (xs : Str), (∀ c ∈ xs, p c = true) → ∀ (y : Char) (ys : Str), p y = false →
      (xs ++ y :: ys).dropWhile p = y :: ys := by
  intro xs
  induction xs with
  | nil =>
    intro _ y ys hy
    simp [List.dropWhile_cons, hy]
  | cons a as IH =>
    intro hall y ys hy
    have ha : p a = true := hall a (List.mem_cons_self a as)
    have IH' := IH (fun c hc => hall c (List.mem_cons_of_mem a hc)) y ys hy
    simp [List.dropWhile_cons, ha, IH']

/-! ## Lemmas: `strip` on reference strings -/

theorem dropWhile_cons_of_neg {p : Char → Bool} {a : Char} (l : Str) (h : p a = false) :
    (a :: l).dropWhile p = a :: l := by
  simp [List.dropWhile_cons, h]

theorem rstripWS_nil : rstripWS [] = [] := rfl

/-- Stripping a string that starts and ends with non-whitespace characters
only right-strips whatever follows it. -/
theorem strip_append (c : Char) (mid : Str) (d : Char) (suffix : Str)
    (hc : isWS c = false) (hd : isWS d = false) :
    strip ((c :: mid ++ [d]) ++ suffix) = (c :: mid ++ [d]) ++ rstripWS suffix := by
  unfold strip rstripWS
  rw [show ((c :: mid ++ [d]) ++ suffix) = c :: (mid ++ [d] ++ suffix) by simp]
  rw [dropWhile_cons_of_neg _ hc]
  rw [show (c :: (mid ++ [d] ++ suffix)).reverse
        = suffix.reverse ++ (d :: (mid.reverse ++ [c])) by simp]
  rw [List.dropWhile_append]
  split
  · next hemp =>
    rw [List.isEmpty_iff] at hemp
    rw [dropWhile_cons_of_neg _ hd, hemp]
    simp
  · next hemp =>
    simp

/-- A string of the shape `c :: mid ++ [d]` with non-whitespace ends strips
to itself. -/
theorem strip_eq_self (c : Char) (mid : Str) (d : Char)
    (hc : isWS c = false) (hd : isWS d = false) :
    strip (c :: mid ++ [d]) = c :: mid ++ [d] := by
  have := strip_append c mid d [] hc hd
  simpa using this

/-- Decompose a decimal rendering into a (possibly empty) digit prefix and
its last digit. -/
theorem natToDec_decomp (n : Nat) :
    ∃ (ds : Str) (d : Char), natToDec n = ds ++ [d] ∧ d.isDigit = true := by
  rcases List.eq_nil_or_concat (natToDec n) with h | ⟨ds, d, h⟩
  · exact absurd h (natToDec_ne_nil n)
  · refine ⟨ds, d, by simpa [List.concat_eq_append] using h, ?_⟩
    exact natToDec_all_digits n d (by rw [h]; simp [List.concat_eq_append])

/-! ## Lemmas: substring test and splitting -/

theorem prefB_iff (xs : Str) : ∀ ys, prefB xs ys = true ↔ ∃ zs, ys = xs ++ zs := by
  induction xs with
  | nil =>
    intro ys
    simp [prefB]
  | cons a as IH =>
    intro ys
    cases ys with
    | nil =>
      simp [prefB]
    | cons b bs =>
      simp only [prefB, Bool.and_eq_true, beq_iff_eq, IH bs]
      constructor
      · rintro ⟨h1, zs, h2⟩
        exact ⟨zs, by rw [h1, h2]; rfl⟩
      · rintro ⟨zs, h⟩
        rw [List.cons_append] at h
        injection h with h1 h2
        exact ⟨h1.symm, zs, h2⟩

theorem substrB_iff (xs : Str) : ∀ ys, substrB xs ys = true ↔ ∃ p q, ys = p ++ xs ++ q := by
  intro ys
  induction ys with
  | nil =>
    simp only [substrB, List.isEmpty_iff]
    constructor
    · intro h
      exact ⟨[], [], by simp [h]⟩
    · rintro ⟨p, q, h⟩
      rcases List.append_eq_nil.mp (List.append_eq_nil.mp h.symm).1 with ⟨_, h2⟩
      exact h2
  | cons b bs IH =>
    simp only [substrB, Bool.or_eq_true, prefB_iff, IH]
    constructor
    · rintro (⟨zs, h⟩ | ⟨p, q, h⟩)
      · exact ⟨[], zs, by simp [h]⟩
      · exact ⟨b :: p, q, by simp [h]⟩
    · rintro ⟨p, q, h⟩
      cases p with
      | nil =>
        exact Or.inl ⟨q, by simpa using h⟩
      | cons c cs =>
        rw [List.cons_append, List.cons_append] at h
        injection h with h1 h2
        exact Or.inr ⟨cs, q, h2⟩

theorem substrB_of_decomp {xs p q : Str} (ys : Str) (h : ys = p ++ xs ++ q) :
    substrB xs ys = true := (substrB_iff xs ys).mpr ⟨p, q, h⟩

theorem mem_of_substrB {xs ys : Str} {c : Char} (h : substrB xs ys = true)
    (hc : c ∈ xs) : c ∈ ys := by
  rcases (substrB_iff xs ys).mp h with ⟨p, q, hpq⟩
  subst hpq
  simp only [List.mem_append]
  exact Or.inl (Or.inr hc)

theorem substrB_eq_false_of_not_mem {c : Char} {tl s : Str}
    (hc : c ∉ s) : substrB (c :: tl) s = false := by
  rcases h : substrB (c :: tl) s with _ | _
  · rfl
  · exact absurd (mem_of_substrB h (List.mem_cons_self c tl)) hc

theorem prefB_false_of_head_ne {x c : Char} {xs rest : Str} (hc : ¬ x = c) :
    prefB (x :: xs) (c :: rest) = false := by
  simp only [prefB, Bool.and_eq_false_iff]
  left
  rcases h : (x == c : Bool) with _ | _
  · rfl
  · exact absurd (beq_iff_eq.mp h) hc

/-- `splitAux` on a string not containing the (space-initial) separator's
first character just accumulates everything into one piece. -/
theorem splitAux_no_space (sep' : Str) :
    ∀ (s : Str), ' ' ∉ s → ∀ fuel, s.length ≤ fuel → ∀ acc,
      splitAux (' ' :: sep') fuel s acc = [acc.reverse ++ s] := by
  intro s
  induction s with
  | nil =>
    intro _ fuel _ acc
    cases fuel <;> simp [splitAux]
  | cons c rest IH =>
    intro hmem fuel hfuel acc
    have hc : ¬ c = ' ' := fun h => hmem (by rw [h]; exact List.mem_cons_self _ _)
    have hpf : prefB (' ' :: sep') (c :: rest) = false :=
      prefB_false_of_head_ne (fun h => hc h.symm)
    cases fuel with
    | zero => simp at hfuel
    | succ f =>
      rw [splitAux]
      simp only [hpf]
      rw [if_neg (by simp)]
      rw [IH (fun hm => hmem (List.mem_cons_of_mem c hm)) f (by simpa using hfuel) (c :: acc)]
      simp

/-- `splitAux` on `s1 ++ sep ++ s2` where neither side contains a space and
the separator starts with one: exactly two pieces. -/
theorem splitAux_two (sep' : Str) (s2 : Str) (h2 : ' ' ∉ s2) :
    ∀ (s1 : Str), ' ' ∉ s1 → ∀ fuel, (s1 ++ (' ' :: sep') ++ s2).length ≤ fuel → ∀ acc,
      splitAux (' ' :: sep') fuel (s1 ++ (' ' :: sep') ++ s2) acc =
        [acc.reverse ++ s1, s2] := by
  intro s1
  induction s1 with
  | nil =>
    intro _ fuel hfuel acc
    rw [show (([] : Str) ++ (' ' :: sep') ++ s2) = ' ' :: (sep' ++ s2) by simp] at hfuel ⊢
    cases fuel with
    | zero => simp at hfuel
    | succ f =>
      rw [splitAux]
      have hpf : prefB (' ' :: sep') (' ' :: (sep' ++ s2)) = true :=
        (prefB_iff _ _).mpr ⟨s2, by simp⟩
      simp only [hpf]
      rw [if_pos (by simp)]
      have hdrop : List.drop (' ' :: sep').length (' ' :: (sep' ++ s2)) = s2 := by
        rw [show (' ' :: (sep' ++ s2)) = (' ' :: sep') ++ s2 by simp]
        exact List.drop_left _ _
      rw [hdrop, splitAux_no_space sep' s2 h2 f (by simp at hfuel ⊢; omega) []]
      simp
  | cons c cs IH =>
    intro hmem fuel hfuel acc
    have hc : ¬ c = ' ' := fun h => hmem (by rw [h]; exact List.mem_cons_self _ _)
    rw [show ((c :: cs) ++ (' ' :: sep') ++ s2) = c :: (cs ++ (' ' :: sep') ++ s2) by simp]
      at hfuel ⊢
    cases fuel with
    | zero => simp at hfuel
    | succ f =>
      rw [splitAux]
      have hpf : prefB (' ' :: sep') (c :: (cs ++ (' ' :: sep') ++ s2)) = false :=
        prefB_false_of_head_ne (fun h => hc h.symm)
      simp only [hpf]
      rw [if_neg (by simp)]
      rw [IH (fun hm => hmem (List.mem_cons_of_mem c hm)) f (by simpa using hfuel) (c :: acc)]
      simp

/-! ## Lemmas: the reference grammar on rendered reference strings -/

/-- No character of a rendered key/reference `L<n>:T<t>` is a space. -/
theorem mkKey_no_space (n t : Nat) : ' ' ∉ mkKey n t := by
  intro hmem
  simp only [mkKey, List.mem_cons, List.mem_append] at hmem
  rcases hmem with h | (h | h)
  · exact absurd h (by decide)
  · exact absurd (natToDec_all_digits n ' ' h) (by decide)
  · rcases h with h | h | h
    · exact absurd h (by decide)
    · exact absurd h (by decide)
    · exact absurd (natToDec_all_digits t ' ' h) (by decide)

theorem matchLocRegex_eval (n : Nat) (c : Char) (rest : Str)
    (hc : c = 'T' ∨ c = 'C') :
    matchLocRegex ('L' :: (natToDec n ++ ':' :: c :: rest)) = some n := by
  have htake := takeWhile_all_append (p := Char.isDigit) (natToDec n)
    (natToDec_all_digits n) ':' (c :: rest) (by decide)
  have hdrop := dropWhile_all_append (p := Char.isDigit) (natToDec n)
    (natToDec_all_digits n) ':' (c :: rest) (by decide)
  simp only [matchLocRegex, htake, hdrop]
  rw [if_neg (by simp [List.isEmpty_iff, natToDec_ne_nil n])]
  have hce : (c == 'T' || c == 'C') = true := by
    rcases hc with h | h <;> simp [h]
  simp [hce, digitsToNat_natToDec]

theorem keyLineNum_eval (n : Nat) (rest : Str) :
    keyLineNum ('L' :: (natToDec n ++ ':' :: rest)) = some n := by
  have htake := takeWhile_all_append (p := Char.isDigit) (natToDec n)
    (natToDec_all_digits n) ':' rest (by decide)
  have hdrop := dropWhile_all_append (p := Char.isDigit) (natToDec n)
    (natToDec_all_digits n) ':' rest (by decide)
  simp only [keyLineNum, htake, hdrop]
  rw [if_neg (by simp [List.isEmpty_iff, natToDec_ne_nil n])]
  simp [digitsToNat_natToDec]

/-- A rendered key `L<n>:T<t>` strips to itself. -/
theorem strip_mkKey (n t : Nat) : strip (mkKey n t) = mkKey n t := by
  rcases natToDec_decomp t with ⟨ds, d, hdec, hdig⟩
  have h := strip_eq_self 'L' (natToDec n ++ ':' :: 'T' :: ds) d
    (by decide) (isWS_of_isDigit hdig)
  rw [show mkKey n t = 'L' :: (natToDec n ++ ':' :: 'T' :: ds) ++ [d] by
    simp [mkKey, hdec]]
  exact h

theorem matchLocRegex_mkKey (n t : Nat) : matchLocRegex (mkKey n t) = some n := by
  have := matchLocRegex_eval n 'T' (natToDec t) (Or.inl rfl)
  simpa [mkKey] using this

theorem substrB_sep_mkKey (n t : Nat) : substrB [' ', '-', ' '] (mkKey n t) = false :=
  substrB_eq_false_of_not_mem (mkKey_no_space n t)

/-- A range reference string `L<n1>:T<t1> - L<n2>:T<t2>`. -/
def mkRangeRef (n1 t1 n2 t2 : Nat) : Str := mkKey n1 t1 ++ " - ".toList ++ mkKey n2 t2

theorem strip_mkRangeRef (n1 t1 n2 t2 : Nat) :
    strip (mkRangeRef n1 t1 n2 t2) = mkRangeRef n1 t1 n2 t2 := by
  rcases natToDec_decomp t2 with ⟨ds, d, hdec, hdig⟩
  have h := strip_eq_self 'L'
    (natToDec n1 ++ ':' :: 'T' :: natToDec t1 ++
      (' ' :: '-' :: ' ' :: 'L' :: (natToDec n2 ++ ':' :: 'T' :: ds))) d
    (by decide) (isWS_of_isDigit hdig)
  rw [show mkRangeRef n1 t1 n2 t2
      = 'L' :: (natToDec n1 ++ ':' :: 'T' :: natToDec t1 ++
          (' ' :: '-' :: ' ' :: 'L' :: (natToDec n2 ++ ':' :: 'T' :: ds))) ++ [d] by
    simp [mkRangeRef, mkKey, hdec,
      show (" - ".toList) = [' ', '-', ' '] from rfl]]
  exact h

theorem splitOnSep_mkRangeRef (n1 t1 n2 t2 : Nat) :
    splitOnSep (" - ".toList) (mkRangeRef n1 t1 n2 t2) = [mkKey n1 t1, mkKey n2 t2] := by
  have h := splitAux_two ['-', ' '] (mkKey n2 t2) (mkKey_no_space n2 t2)
    (mkKey n1 t1) (mkKey_no_space n1 t1)
    (mkKey n1 t1 ++ (' ' :: ['-', ' ']) ++ mkKey n2 t2).length (Nat.le_refl _) []
  simpa [splitOnSep, mkRangeRef, show (" - ".toList) = ' ' :: ['-', ' '] from rfl] using h

/-! ## Claim C1 -/

/-- **C1** (counterexample): the spec demands that `"L5:T2"` against a
document whose line 5 has tab-depth 3 resolve to `[]` (exact-tab match
against the DocumentIndex).  In the code the key `(5, 2)` is absent from
`doc_data`, yet the reference still resolves — to the key at line 5 with
tab-depth 3. -/
theorem C1_counterexample :
    ((parse_docx ["p".toList, "p".toList, "p".toList, "p".toList,
        "\t\t\tX".toList]).1.lookup ("L5:T2".toList) = none) ∧
    parse_location_string ("L5:T2".toList)
      (parse_docx ["p".toList, "p".toList, "p".toList, "p".toList,
        "\t\t\tX".toList]).2
      = ["L5:T3".toList] := by decide

/-- **C1** (amended): a single-point reference `L<line>:T<tab>` is resolved
through the line→key map by its line number alone: for every map it yields
exactly the (truthy) key stored at that line, regardless of the tab digits
in the reference, and is empty exactly when the line has no key.  The
exact-tab requirement of the claim does not exist in the code. -/
theorem C1_amended_single_point_resolves_by_line_only
    (lmap : List (Nat × Str)) (n t : Nat) :
    parse_location_string (mkKey n t) lmap = (truthyLookup lmap n).toList := by
  simp [parse_location_string, strip_mkKey, substrB_sep_mkKey, matchLocRegex_mkKey]

/-! ## Claim C6 -/

/-- **C6**: a range reference `L<n1>:T<t1> - L<n2>:T<t2>` resolves to the
keys found at each line from `n1` to `n2` inclusive, in increasing line
order, skipping lines with no (truthy) key; if the start line exceeds the
end line the result is empty.  (The embedding is a total function, so
resolution never raises.) -/
theorem C6_range_resolution (lmap : List (Nat × Str)) (n1 t1 n2 t2 : Nat) :
    parse_location_string (mkRangeRef n1 t1 n2 t2) lmap
      = (List.range' n1 (n2 + 1 - n1)).filterMap (truthyLookup lmap) ∧
    (n2 < n1 → parse_location_string (mkRangeRef n1 t1 n2 t2) lmap = []) := by
  have hsub : substrB [' ', '-', ' '] (mkRangeRef n1 t1 n2 t2) = true := by
    apply substrB_of_decomp (p := mkKey n1 t1) (q := mkKey n2 t2)
    simp [mkRangeRef, show (" - ".toList) = [' ', '-', ' '] from rfl]
  have hsplit : splitOnSep [' ', '-', ' '] (mkRangeRef n1 t1 n2 t2)
      = [mkKey n1 t1, mkKey n2 t2] := splitOnSep_mkRangeRef n1 t1 n2 t2
  have hmain : parse_location_string (mkRangeRef n1 t1 n2 t2) lmap
      = (List.range' n1 (n2 + 1 - n1)).filterMap (truthyLookup lmap) := by
    simp [parse_location_string, strip_mkRangeRef, hsub, hsplit,
      strip_mkKey, matchLocRegex_mkKey]
  refine ⟨hmain, fun hlt => ?_⟩
  rw [hmain, show n2 + 1 - n1 = 0 by omega]
  simp

/-- **C6** (witness): a reversed range (`L6:T0 - L3:T0`) resolves to the
empty list even though line 3 exists. -/
theorem C6_range_resolution_witness :
    parse_location_string (mkRangeRef 6 0 3 0) [(3, "L3:T0".toList)] = [] :=
  (C6_range_resolution [(3, "L3:T0".toList)] 6 0 3 0).2 (by decide)

/-! ## Claim C10 -/

/-- **C10** (counterexample): the claim says any string whose prefix matches
`L<digits>:[TC]` resolves through the line-to-key map regardless of the
trailing characters.  `"L5:T0 - x"` has such a prefix and line 5 exists,
yet it resolves to `[]`, because the embedded `" - "` routes it to the
range branch whose right half fails the grammar. -/
theorem C10_counterexample :
    parse_location_string ("L5:T0 - x".toList) [(5, "L5:T0".toList)] = [] ∧
    truthyLookup [(5, "L5:T0".toList)] 5 = some ("L5:T0".toList) := by decide

/-- **C10** (amended): provided the (stripped) reference does not contain
the range separator `" - "`, any string starting `L<digits>:` followed by
`T` or `C` — whatever follows: no tab digits, a wildcard with digits,
arbitrary trailing characters — resolves through the line-to-key map by
its line number. -/
theorem C10_amended_lenient_single_grammar
    (lmap : List (Nat × Str)) (n : Nat) (c : Char) (suffix : Str)
    (hc : c = 'T' ∨ c = 'C')
    (hsep : substrB (" - ".toList)
      (strip ('L' :: (natToDec n ++ ':' :: c :: suffix))) = false) :
    parse_location_string ('L' :: (natToDec n ++ ':' :: c :: suffix)) lmap
      = (truthyLookup lmap n).toList := by
  have hwc : isWS c = false := by rcases hc with h | h <;> (subst h; decide)
  have hstrip : strip ('L' :: (natToDec n ++ ':' :: c :: suffix))
      = 'L' :: (natToDec n ++ ':' :: c :: rstripWS suffix) := by
    have h := strip_append 'L' (natToDec n ++ [':']) c suffix (by decide) hwc
    simpa using h
  rw [hstrip] at hsep
  have hsep' : substrB [' ', '-', ' ']
      ('L' :: (natToDec n ++ ':' :: c :: rstripWS suffix)) = false := hsep
  have hm : matchLocRegex ('L' :: (natToDec n ++ ':' :: c :: rstripWS suffix)) = some n :=
    matchLocRegex_eval n c (rstripWS suffix) hc
  simp [parse_location_string, hstrip, hsep', hm]

/-- **C10** (witness): `"L5:C7"` — a wildcard with trailing digits —
resolves to the key at line 5. -/
theorem C10_amended_lenient_single_grammar_witness :
    ('L' :: (natToDec 5 ++ ':' :: 'C' :: "7".toList)) = "L5:C7".toList ∧
    parse_location_string ('L' :: (natToDec 5 ++ ':' :: 'C' :: "7".toList))
      [(5, "L5:T0".toList)]
      = (truthyLookup [(5, "L5:T0".toList)] 5).toList :=
  ⟨by decide,
   C10_amended_lenient_single_grammar [(5, "L5:T0".toList)] 5 'C' "7".toList
     (Or.inr rfl) (by decide)⟩

/-! ## Claim C4 -/

theorem parse_docxAux_getElem (paras : List Str) : ∀ (c n : Nat),
    (parse_docxAux paras c).1[n]?
      = (paras[n]?).map (fun p => (mkKey (c + n + 1) (p.count '\t'), strip p)) ∧
    (parse_docxAux paras c).2[n]?
      = (paras[n]?).map (fun p => (c + n + 1, mkKey (c + n + 1) (p.count '\t'))) := by
  induction paras with
  | nil => intro c n; simp [parse_docxAux]
  | cons p rest IH =>
    intro c n
    cases n with
    | zero => simp [parse_docxAux]
    | succ n =>
      have h := IH (c + 1) n
      simp only [show c + 1 + n + 1 = c + (n + 1) + 1 from by omega] at h
      simpa [parse_docxAux] using h

/-- **C4** (counterexample): the empty paragraph of the one-paragraph
document `[""]` *is* stored in the key→text index — under key `L1:T0` with
the empty string as text — contradicting "trimmed text … only for
non-empty paragraphs". -/
theorem C4_counterexample :
    (parse_docx [([] : Str)]).1.lookup (mkKey 1 0) = some [] := by decide

/-- **C4** (amended): the key→text index stores the trimmed text of *every*
paragraph, empty ones included (an empty paragraph maps to the empty
string), and the line→key mapping likewise records an entry for every
paragraph: position `n` of either list is the entry for paragraph `n`
(line `n+1`), and both lists have exactly one entry per paragraph. -/
theorem C4_amended_index_stores_every_paragraph (paras : List Str) (n : Nat) :
    (parse_docx paras).1[n]?
      = (paras[n]?).map (fun p => (mkKey (n + 1) (p.count '\t'), strip p)) ∧
    (parse_docx paras).2[n]?
      = (paras[n]?).map (fun p => (n + 1, mkKey (n + 1) (p.count '\t'))) := by
  have h := parse_docxAux_getElem paras 0 n
  simpa [parse_docx] using h

/-! ## Helper lemmas for the Row Checker claims -/

/-- A string containing a non-whitespace character does not strip to the
empty string. -/
theorem strip_isEmpty_false {ch : Char} {s : Str} (hc : ch ∈ s) (hw : isWS ch = false) :
    (strip s).isEmpty = false := by
  have hdrop : ch ∈ s.dropWhile isWS := by
    have hsplit := List.takeWhile_append_dropWhile (p := isWS) (l := s)
    rw [← hsplit] at hc
    rcases List.mem_append.mp hc with h | h
    · exact absurd (List.mem_takeWhile_imp h) (by simp [hw])
    · exact h
  have hrev : ch ∈ (s.dropWhile isWS).reverse := List.mem_reverse.mpr hdrop
  have hdrop2 : ch ∈ (s.dropWhile isWS).reverse.dropWhile isWS := by
    have hsplit := List.takeWhile_append_dropWhile (p := isWS)
      (l := (s.dropWhile isWS).reverse)
    rw [← hsplit] at hrev
    rcases List.mem_append.mp hrev with h | h
    · exact absurd (List.mem_takeWhile_imp h) (by simp [hw])
    · exact h
  rcases he : ((strip s).isEmpty) with _ | _
  · rfl
  · exfalso
    rw [List.isEmpty_iff] at he
    unfold strip rstripWS at he
    rw [List.reverse_eq_nil_iff] at he
    rw [he] at hdrop2
    exact absurd hdrop2 (List.not_mem_nil ch)

/-- All branches of `mkResult` report the Excel row `index + 2`. -/
theorem mkResult_excel_row (index : Nat) (sentence location : Str)
    (doc_data : List (Str × Str)) (lmap : List (Nat × Str)) :
    (mkResult index sentence location doc_data lmap).excel_row = index + 2 := by
  unfold mkResult checkLocated
  dsimp only
  split
  · rfl
  · split
    · rfl
    · split <;> rfl

theorem processRow_excel_row {index : Nat} {cells : List Str}
    {doc_data : List (Str × Str)} {lmap : List (Nat × Str)} {r : ResultItem}
    (h : processRow index cells doc_data lmap = some r) : r.excel_row = index + 2 := by
  unfold processRow at h
  split at h
  · exact absurd h (by simp)
  · injection h with h
    rw [← h]
    exact mkResult_excel_row _ _ _ _ _

theorem mem_enumFrom_getElem {α : Type _} :
    ∀ (l : List α) (k i : Nat) (x : α), (i, x) ∈ List.enumFrom k l →
      ∃ m, l[m]? = some x ∧ i = k + m := by
  intro l
  induction l with
  | nil => intro k i x h; exact absurd h (List.not_mem_nil _)
  | cons y ys IH =>
    intro k i x h
    rw [List.enumFrom_cons] at h
    rcases List.mem_cons.mp h with h | h
    · injection h with h1 h2
      exact ⟨0, by simp [h2.symm], by omega⟩
    · rcases IH (k + 1) i x h with ⟨m, hm, hi⟩
      exact ⟨m + 1, by simpa using hm, by omega⟩

/-- Every non-skipped row contributes exactly one record. -/
theorem enumFrom_filterMap_processRow_length
    (doc_data : List (Str × Str)) (lmap : List (Nat × Str)) :
    ∀ (l : List (List Str)) (k : Nat),
      ((List.enumFrom k l).filterMap (fun p => processRow p.1 p.2 doc_data lmap)).length
        = (l.filter (fun c => !skipCond c)).length := by
  intro l
  induction l with
  | nil => intro k; rfl
  | cons c cs IH =>
    intro k
    rw [List.enumFrom_cons]
    rcases hs : skipCond c with _ | _
    · simp only [List.filterMap_cons, List.filter_cons, hs]
      have hp : processRow k c doc_data lmap = some (mkResult k
          (strip (c.getD 3 "nan".toList)) (strip (c.getD 5 "nan".toList))
          doc_data lmap) := by
        unfold processRow
        rw [if_neg (by simp [hs])]
      rw [hp]
      simpa using IH (k + 1)
    · simp only [List.filterMap_cons, List.filter_cons, hs]
      have hp : processRow k c doc_data lmap = none := by
        unfold processRow
        rw [if_pos hs]
      rw [hp]
      simpa using IH (k + 1)

/-! ## Claim C7: the diff runs reconstruct the source string

The `j` (second-sequence) projections of the matching blocks form a
non-overlapping increasing chain; the opcodes therefore tile `[0, |b|)` on
the `j` side, and concatenating the per-opcode `b`-slices that
`get_highlighted_diff` keeps reproduces `b` exactly. -/

/-- The `j`-side chain invariant: each block starts at or after `lo`,
blocks do not overlap, and the last block ends by `hi`. -/
def jChainB : Nat → Nat → List (Nat × Nat × Nat) → Prop
  | lo, hi, [] => lo ≤ hi
  | lo, hi, (_, bj, k) :: rest => lo ≤ bj ∧ jChainB (bj + k) hi rest

/-- The chain invariant without an upper bound. -/
def jChain : Nat → List (Nat × Nat × Nat) → Prop
  | _, [] => True
  | lo, (_, bj, k) :: rest => lo ≤ bj ∧ jChain (bj + k) rest

/-- Final `j` position after walking the blocks. -/
def endJ : Nat → List (Nat × Nat × Nat) → Nat
  | j, [] => j
  | _, (_, bj, k) :: rest => endJ (bj + k) rest

theorem jChainB_weaken : ∀ (L : List (Nat × Nat × Nat)) (lo lo' hi : Nat),
    lo ≤ lo' → jChainB lo' hi L → jChainB lo hi L := by
  intro L
  induction L with
  | nil => intro lo lo' hi h1 h2; exact Nat.le_trans h1 h2
  | cons x rest IH =>
    rcases x with ⟨i, bj, k⟩
    intro lo lo' hi h1 h2
    exact ⟨Nat.le_trans h1 h2.1, h2.2⟩

theorem jChainB_append : ∀ (L1 L2 : List (Nat × Nat × Nat)) (lo mid hi : Nat),
    jChainB lo mid L1 → jChainB mid hi L2 → jChainB lo hi (L1 ++ L2) := by
  intro L1
  induction L1 with
  | nil =>
    intro L2 lo mid hi h1 h2
    exact jChainB_weaken L2 lo mid hi h1 h2
  | cons x rest IH =>
    rcases x with ⟨i, bj, k⟩
    intro L2 lo mid hi h1 h2
    exact ⟨h1.1, IH L2 (bj + k) mid hi h1.2 h2⟩

theorem matching_blocks_rec_chain :
    ∀ (n : Nat) (a b : Str) (alo ahi blo bhi : Nat),
      (ahi - alo) + (bhi - blo) ≤ n → blo ≤ bhi →
      jChainB blo bhi (matching_blocks_rec a b alo ahi blo bhi) := by
  intro n
  induction n using Nat.strong_induction_on with
  | _ n IH =>
    intro a b alo ahi blo bhi hn hbb
    rw [matching_blocks_rec]
    split
    · exact hbb
    · next hk =>
      have hb := flm_bounds a b alo ahi blo bhi hk
      have hK : 1 ≤ flmK a b alo ahi blo bhi := by omega
      apply jChainB_append _ _ blo (flmJ a b alo ahi blo bhi) bhi
      · split
        · next hl =>
          rcases Nat.eq_zero_or_pos n with h0 | h1
          · omega
          · exact IH (n - 1) (by omega) a b alo (flmI a b alo ahi blo bhi) blo
              (flmJ a b alo ahi blo bhi) (by omega) (by omega)
        · exact hb.2.1
      · refine ⟨Nat.le_refl _, ?_⟩
        split
        · next hr =>
          rcases Nat.eq_zero_or_pos n with h0 | h1
          · omega
          · exact IH (n - 1) (by omega) a b
              (flmI a b alo ahi blo bhi + flmK a b alo ahi blo bhi) ahi
              (flmJ a b alo ahi blo bhi + flmK a b alo ahi blo bhi) bhi
              (by omega) (by omega)
        · exact hb.2.2.2

theorem mergeAdjacent_chainB :
    ∀ (L : List (Nat × Nat × Nat)) (i1 j1 k1 lo hi : Nat),
      lo ≤ j1 → jChainB (j1 + k1) hi L →
      jChainB lo hi (mergeAdjacent (i1, j1, k1) L) := by
  intro L
  induction L with
  | nil =>
    intro i1 j1 k1 lo hi h1 h2
    have h2' : j1 + k1 ≤ hi := h2
    unfold mergeAdjacent
    split
    · exact ⟨h1, h2⟩
    · show lo ≤ hi
      omega
  | cons x rest IH =>
    rcases x with ⟨i2, j2, k2⟩
    intro i1 j1 k1 lo hi h1 h2
    unfold mergeAdjacent
    split
    · next hadj =>
      apply IH i1 j1 (k1 + k2) lo hi h1
      rw [show j1 + (k1 + k2) = j2 + k2 by omega]
      exact h2.2
    · next hadj =>
      have h2' : jChainB (j2 + k2) hi rest := h2.2
      have hj12 : j1 + k1 ≤ j2 := h2.1
      split
      · next hk1 =>
        exact jChainB_append [(i1, j1, k1)] _ lo (j1 + k1) hi
          ⟨h1, Nat.le_refl _⟩ (IH i2 j2 k2 (j1 + k1) hi hj12 h2')
      · next hk1 =>
        simp only [List.nil_append]
        exact IH i2 j2 k2 lo hi (by omega) h2'

theorem jChainB_snoc_sentinel :
    ∀ (L : List (Nat × Nat × Nat)) (lo hi x : Nat), jChainB lo hi L →
      jChain lo (L ++ [(x, hi, 0)]) ∧ endJ lo (L ++ [(x, hi, 0)]) = hi := by
  intro L
  induction L with
  | nil =>
    intro lo hi x h
    exact ⟨⟨h, trivial⟩, rfl⟩
  | cons y rest IH =>
    rcases y with ⟨i, bj, k⟩
    intro lo hi x h
    have := IH (bj + k) hi x h.2
    exact ⟨⟨h.1, this.1⟩, this.2⟩

theorem get_matching_blocks_chain (a b : Str) :
    jChain 0 (get_matching_blocks a b) ∧ endJ 0 (get_matching_blocks a b) = b.length := by
  unfold get_matching_blocks
  have h1 := matching_blocks_rec_chain ((a.length - 0) + (b.length - 0)) a b
    0 a.length 0 b.length (Nat.le_refl _) (Nat.zero_le _)
  have h2 := mergeAdjacent_chainB (matching_blocks_rec a b 0 a.length 0 b.length)
    0 0 0 0 b.length (Nat.le_refl 0) (by simpa using h1)
  exact jChainB_snoc_sentinel _ 0 b.length a.length h2

theorem endJ_ge : ∀ (L : List (Nat × Nat × Nat)) (lo : Nat),
    jChain lo L → lo ≤ endJ lo L := by
  intro L
  induction L with
  | nil => intro lo _; exact Nat.le_refl _
  | cons x rest IH =>
    rcases x with ⟨i, bj, k⟩
    intro lo h
    exact Nat.le_trans (Nat.le_trans h.1 (Nat.le_add_right bj k)) (IH (bj + k) h.2)

theorem sliceStr_self (s : Str) (j : Nat) : sliceStr s j j = [] := by
  unfold sliceStr
  simp

theorem sliceStr_append (s : Str) {a b c : Nat} (h1 : a ≤ b) (h2 : b ≤ c) :
    sliceStr s a b ++ sliceStr s b c = sliceStr s a c := by
  unfold sliceStr
  rw [show s.drop b = (s.drop a).drop (b - a) by
    rw [List.drop_drop]; congr 1; omega]
  rw [← List.take_add, show b - a + (c - b) = c - a by omega]

/-- Three consecutive slices concatenate. -/
theorem sliceStr_append3 (s : Str) {j bj size e : Nat} (h1 : j ≤ bj)
    (h2 : bj + size ≤ e) :
    sliceStr s j bj ++ (sliceStr s bj (bj + size) ++ sliceStr s (bj + size) e)
      = sliceStr s j e := by
  rw [← List.append_assoc, sliceStr_append s h1 (Nat.le_add_right bj size),
    sliceStr_append s (Nat.le_trans h1 (Nat.le_add_right bj size)) h2]

/-- The run extraction used by `highlight_runs`, abstracted over the
source string. -/
def runOf (b : Str) (op : Tag × Nat × Nat × Nat × Nat) : Option (Bool × Str) :=
  match op with
  | (Tag.equal, _, _, j1, j2) => some (false, sliceStr b j1 j2)
  | (Tag.insert, _, _, j1, j2) => some (true, sliceStr b j1 j2)
  | (Tag.replace, _, _, j1, j2) => some (true, sliceStr b j1 j2)
  | (Tag.delete, _, _, _, _) => none

theorem opcodesFrom_reconstruct (b : Str) :
    ∀ (blocks : List (Nat × Nat × Nat)) (i j : Nat), jChain j blocks →
      (((opcodesFrom i j blocks).filterMap (runOf b)).map Prod.snd).flatten
        = sliceStr b j (endJ j blocks) := by
  intro blocks
  induction blocks with
  | nil =>
    intro i j _
    rw [show endJ j [] = j from rfl, sliceStr_self]
    rfl
  | cons blk rest IH =>
    rcases blk with ⟨ai, bj, size⟩
    intro i j hch
    have hjb : j ≤ bj := hch.1
    have hrest : jChain (bj + size) rest := hch.2
    have hend : bj + size ≤ endJ (bj + size) rest := endJ_ge rest (bj + size) hrest
    have hIH := IH (ai + size) (bj + size) hrest
    rw [show endJ j ((ai, bj, size) :: rest) = endJ (bj + size) rest from rfl]
    have heqp : (((if size ≠ 0 then [(Tag.equal, ai, ai + size, bj, bj + size)]
        else []).filterMap (runOf b)).map Prod.snd).flatten
        = sliceStr b bj (bj + size) := by
      split
      · simp [runOf]
      · next hz =>
        have hz0 : size = 0 := by omega
        subst hz0
        rw [show bj + 0 = bj from rfl, sliceStr_self]
        rfl
    simp only [opcodesFrom, List.filterMap_append, List.map_append,
      List.flatten_append, List.append_assoc]
    rw [hIH, heqp]
    split
    · next h1 =>
      have ht : ((([(Tag.replace, i, ai, j, bj)] :
          List (Tag × Nat × Nat × Nat × Nat)).filterMap (runOf b)).map
            Prod.snd).flatten = sliceStr b j bj := by
        simp [runOf]
      rw [ht]
      exact sliceStr_append3 b hjb hend
    · next h1 =>
      split
      · next h2 =>
        have hbj : j = bj := by omega
        subst hbj
        have ht : ((([(Tag.delete, i, ai, j, j)] :
            List (Tag × Nat × Nat × Nat × Nat)).filterMap (runOf b)).map
              Prod.snd).flatten = ([] : Str) := by
          simp [runOf]
        rw [ht, List.nil_append]
        exact sliceStr_append b (Nat.le_add_right j size) hend
      · next h2 =>
        split
        · next h3 =>
          have ht : ((([(Tag.insert, i, ai, j, bj)] :
              List (Tag × Nat × Nat × Nat × Nat)).filterMap (runOf b)).map
                Prod.snd).flatten = sliceStr b j bj := by
            simp [runOf]
          rw [ht]
          exact sliceStr_append3 b hjb hend
        · next h3 =>
          have hbj : j = bj := by omega
          subst hbj
          simp only [List.filterMap_nil, List.map_nil, List.flatten_nil,
            List.nil_append]
          exact sliceStr_append b (Nat.le_add_right j size) hend

/-- **C7**: for every source sentence and target text, the concatenation of
the marked and unmarked runs produced by the Diff Highlighter, in order,
reconstructs the source string character for character (stripping all
highlight markers from the output yields exactly the source). -/
theorem C7_diff_runs_reconstruct_source (text1 text2 : Str) :
    ((highlight_runs text1 text2).map Prod.snd).flatten = text1 := by
  have hc := get_matching_blocks_chain text2 text1
  have h := opcodesFrom_reconstruct text1 (get_matching_blocks text2 text1) 0 0 hc.1
  rw [hc.2] at h
  have hruns : highlight_runs text1 text2
      = (opcodesFrom 0 0 (get_matching_blocks text2 text1)).filterMap (runOf text1) := rfl
  rw [hruns, h]
  unfold sliceStr
  simp

/-! ## Claim C2 -/

/-- **C2** (counterexample): the sentence `"World"` is *not* in line 1 of
the document `["Hello", "World"]`, the reference `"L1:T0"` resolves to the
single key of line 1 — yet the row is reported as a match, because the
neighbourhood expansion is always active: there is no configuration flag
and exact resolution is not the default. -/
theorem C2_counterexample :
    substrB ("World".toList) (strip ("Hello".toList)) = false ∧
    parse_location_string ("L1:T0".toList)
      (parse_docx ["Hello".toList, "World".toList]).2 = ["L1:T0".toList] ∧
    (run_checker 6
        [["a".toList, "b".toList, "c".toList, "World".toList, "e".toList,
          "L1:T0".toList]]
        (parse_docx ["Hello".toList, "World".toList]).1
        (parse_docx ["Hello".toList, "World".toList]).2).map
      (List.map ResultItem.status) = some [okStatus] := by decide

/-- **C2** (amended): single-point resolution is *unconditionally*
neighbourhood-expanded: whenever a reference resolves to exactly one key
whose line number is `n`, the checked keys are exactly the (truthy) map
entries at lines `max 1 (n-5) … n+5`; the empty resolution stays empty and
multi-key (range) resolutions pass through unchanged.  No flag exists and
exact single-point mode is unavailable. -/
theorem C2_amended_expansion_always_on (lmap : List (Nat × Str)) (k : Str)
    (n : Nat) (keys : List Str) (h : keyLineNum k = some n) :
    expandKeys [k] lmap
      = (List.range' (max 1 (n - 5)) (n + 5 + 1 - max 1 (n - 5))).filterMap
          (truthyLookup lmap) ∧
    expandKeys [] lmap = [] ∧
    (2 ≤ keys.length → expandKeys keys lmap = keys) := by
  refine ⟨by simp [expandKeys, h], by simp [expandKeys], fun h2 => ?_⟩
  have hne : keys.isEmpty = false := by
    rcases keys with _ | _
    · simp at h2
    · simp
  have hlen : ¬ keys.length = 1 := by omega
  simp [expandKeys, hne, hlen]

/-- **C2** (witness): key `"L7:T0"` is expanded to the window of lines
2–12, and a two-key list passes through unchanged. -/
theorem C2_amended_expansion_always_on_witness :
    expandKeys ["L7:T0".toList] [(2, "L2:T0".toList)]
      = (List.range' (max 1 (7 - 5)) (7 + 5 + 1 - max 1 (7 - 5))).filterMap
          (truthyLookup [(2, "L2:T0".toList)]) ∧
    expandKeys ["x".toList, "y".toList] [(2, "L2:T0".toList)]
      = ["x".toList, "y".toList] :=
  ⟨(C2_amended_expansion_always_on [(2, "L2:T0".toList)] ("L7:T0".toList) 7
      ["x".toList, "y".toList] (by decide)).1,
   (C2_amended_expansion_always_on [(2, "L2:T0".toList)] ("L7:T0".toList) 7
      ["x".toList, "y".toList] (by decide)).2.2 (by decide)⟩

/-! ## Claim C3 -/

/-- **C3**: the match evaluation reports success exactly when the claimed
sentence is a contiguous substring of at least one individually located
text block; when no single block contains it but the space-joined
concatenation does, the row is still reported as a mismatch while the
concatenation (and its highlighted diff) is retained for display. -/
theorem C3_match_iff_substring_of_single_block (index : Nat)
    (sentence location : Str) (expanded : List Str) (doc_data : List (Str × Str)) :
    ((checkLocated index sentence location expanded doc_data).status = okStatus
      ↔ (expanded.filterMap (fun k => doc_data.lookup k)).any
          (fun t => substrB sentence t) = true) ∧
    ((∃ ch ∈ sentence, isWS ch = false) →
      (expanded.filterMap (fun k => doc_data.lookup k)).any
        (fun t => substrB sentence t) = false →
      substrB sentence (joinSp (expanded.filterMap (fun k => doc_data.lookup k))) = true →
        (checkLocated index sentence location expanded doc_data).status = badStatus ∧
        (checkLocated index sentence location expanded doc_data).doc_text
          = some (joinSp (expanded.filterMap (fun k => doc_data.lookup k))) ∧
        (checkLocated index sentence location expanded doc_data).highlighted
          = some (get_highlighted_diff sentence
              (joinSp (expanded.filterMap (fun k => doc_data.lookup k))))) := by
  constructor
  · unfold checkLocated
    dsimp only
    split
    · next hf => simp [hf]
    · next hf =>
      rw [Bool.not_eq_true] at hf
      split
      · simp [hf, badStatus, okStatus]
      · simp [hf, badStatus, okStatus]
  · rintro ⟨ch, hch, hw⟩ hany hsub
    have hchj : ch ∈ joinSp (expanded.filterMap (fun k => doc_data.lookup k)) :=
      mem_of_substrB hsub hch
    have hne := strip_isEmpty_false hchj hw
    unfold checkLocated
    dsimp only
    rw [if_neg (by simp [hany]), if_neg (by simp [hne])]
    exact ⟨rfl, rfl, rfl⟩

/-- **C3** (witness): sentence `"a b"` against blocks `"a"` and `"b"`: no
single block contains it, the concatenation `"a b"` does, and the row is a
mismatch with the concatenation attached. -/
theorem C3_match_iff_substring_of_single_block_witness :
    (checkLocated 0 ("a b".toList) ("L1:T0".toList)
        ["k1".toList, "k2".toList]
        [("k1".toList, "a".toList), ("k2".toList, "b".toList)]).status = badStatus ∧
    (checkLocated 0 ("a b".toList) ("L1:T0".toList)
        ["k1".toList, "k2".toList]
        [("k1".toList, "a".toList), ("k2".toList, "b".toList)]).doc_text
      = some (joinSp ((["k1".toList, "k2".toList]).filterMap
          (fun k => List.lookup k [("k1".toList, "a".toList), ("k2".toList, "b".toList)]))) := by
  have h := (C3_match_iff_substring_of_single_block 0 ("a b".toList) ("L1:T0".toList)
    ["k1".toList, "k2".toList]
    [("k1".toList, "a".toList), ("k2".toList, "b".toList)]).2
    (by decide) (by decide) (by decide)
  exact ⟨h.1, h.2.1⟩

/-! ## Claim C5 -/

/-- **C5** (counterexample): a row whose location resolves to the single
(empty) paragraph of the document and whose sentence is not matched is a
mismatch, yet carries *neither* the highlighted fragment nor the raw
located text, because the located content strips to the empty string —
contradicting "these two fields are attached on every mismatch". -/
theorem C5_counterexample :
    (run_checker 6
        [["a".toList, "b".toList, "c".toList, "x".toList, "e".toList,
          "L1:T0".toList]]
        (parse_docx [([] : Str)]).1 (parse_docx [([] : Str)]).2).map
      (List.map (fun r => (r.status, r.highlighted, r.doc_text)))
      = some [(badStatus, none, none)] := by decide

/-- **C5** (amended): the highlighted fragment and the raw located text are
attached exactly on those mismatches whose concatenated located text does
not strip to the empty string; on such rows both fields are attached (the
diff against the concatenation, and the concatenation itself), and on every
other row — matches, unresolved locations, and blank-content mismatches —
both are absent. -/
theorem C5_amended_mismatch_attachments (index : Nat) (sentence location : Str)
    (doc_data : List (Str × Str)) (lmap : List (Nat × Str)) :
    (mkResult index sentence location doc_data lmap).highlighted
      = (if (mkResult index sentence location doc_data lmap).status = badStatus ∧
            (strip (joinSp ((expandKeys (parse_location_string location lmap) lmap).filterMap
              (fun k => doc_data.lookup k)))).isEmpty = false
         then some (get_highlighted_diff sentence
            (joinSp ((expandKeys (parse_location_string location lmap) lmap).filterMap
              (fun k => doc_data.lookup k))))
         else none) ∧
    (mkResult index sentence location doc_data lmap).doc_text
      = (if (mkResult index sentence location doc_data lmap).status = badStatus ∧
            (strip (joinSp ((expandKeys (parse_location_string location lmap) lmap).filterMap
              (fun k => doc_data.lookup k)))).isEmpty = false
         then some (joinSp ((expandKeys (parse_location_string location lmap) lmap).filterMap
            (fun k => doc_data.lookup k)))
         else none) := by
  unfold mkResult checkLocated
  dsimp only
  split
  · next hemp =>
    rw [if_neg (by simp [errStatus, badStatus])]
    rw [if_neg (by simp [errStatus, badStatus])]
    exact ⟨rfl, rfl⟩
  · next hemp =>
    split
    · next hf =>
      rw [if_neg (by simp [okStatus, badStatus])]
      rw [if_neg (by simp [okStatus, badStatus])]
      exact ⟨rfl, rfl⟩
    · next hf =>
      split
      · next hstr =>
        rw [if_neg (by simp [hstr])]
        rw [if_neg (by simp [hstr])]
        exact ⟨rfl, rfl⟩
      · next hstr =>
        rw [Bool.not_eq_true] at hstr
        rw [if_pos ⟨rfl, hstr⟩, if_pos ⟨rfl, hstr⟩]
        exact ⟨rfl, rfl⟩

/-! ## Claim C8 -/

/-- **C8**: a row whose claimed-sentence or location-reference field is
blank (or the `"nan"` null-marker) produces no result record at all, every
produced record reports `index + 2` as its row number, and every record in
a batch result stems from the row at its true original position. -/
theorem C8_skipped_rows_and_row_numbers (doc_data : List (Str × Str))
    (lmap : List (Nat × Str)) (index : Nat) (cells : List Str) (ncols : Nat)
    (rows : List (List Str)) (res : List ResultItem) (r : ResultItem) :
    (skipCond cells = true → processRow index cells doc_data lmap = none) ∧
    ((processRow index cells doc_data lmap).all
      (fun r' => r'.excel_row == index + 2) = true) ∧
    (run_checker ncols rows doc_data lmap = some res → r ∈ res →
      ∃ i cells', rows[i]? = some cells' ∧
        processRow i cells' doc_data lmap = some r ∧ r.excel_row = i + 2) := by
  refine ⟨fun h => by simp [processRow, h], ?_, ?_⟩
  · rcases hp : processRow index cells doc_data lmap with _ | r'
    · rfl
    · simpa using processRow_excel_row hp
  · intro hrun hmem
    unfold run_checker at hrun
    split at hrun
    · exact absurd hrun (by simp)
    · injection hrun with hrun
      rw [← hrun] at hmem
      rcases List.mem_filterMap.mp hmem with ⟨⟨i, cells'⟩, hpm, hpr⟩
      rcases mem_enumFrom_getElem rows 0 i cells' hpm with ⟨m, hm, hi⟩
      refine ⟨m, cells', hm, ?_, ?_⟩
      · rw [show m = i by omega]
        exact hpr
      · rw [show m = i by omega]
        exact processRow_excel_row hpr

set_option maxRecDepth 10000 in
set_option maxHeartbeats 1000000 in
/-- **C8** (witness): a sheet with a blank-sentence row followed by a valid
row: the blank row is skipped, and the surviving record carries Excel row
number 3 (original position 1, plus the 2 header offset). -/
theorem C8_skipped_rows_and_row_numbers_witness :
    processRow 0
      ["a".toList, "b".toList, "c".toList, "".toList, "e".toList, "L1:T0".toList]
      (parse_docx ["x".toList]).1 (parse_docx ["x".toList]).2 = none ∧
    (∃ i cells',
      ([["a".toList, "b".toList, "c".toList, "".toList, "e".toList, "L1:T0".toList],
        ["a".toList, "b".toList, "c".toList, "x".toList, "e".toList, "L1:T0".toList]] :
          List (List Str))[i]? = some cells' ∧
      processRow i cells' (parse_docx ["x".toList]).1 (parse_docx ["x".toList]).2
        = some (mkResult 1 ("x".toList) ("L1:T0".toList)
            (parse_docx ["x".toList]).1 (parse_docx ["x".toList]).2) ∧
      (mkResult 1 ("x".toList) ("L1:T0".toList)
        (parse_docx ["x".toList]).1 (parse_docx ["x".toList]).2).excel_row = i + 2) :=
  ⟨(C8_skipped_rows_and_row_numbers (parse_docx ["x".toList]).1
      (parse_docx ["x".toList]).2 0
      ["a".toList, "b".toList, "c".toList, "".toList, "e".toList, "L1:T0".toList]
      6 [] []
      (mkResult 1 ("x".toList) ("L1:T0".toList)
        (parse_docx ["x".toList]).1 (parse_docx ["x".toList]).2)).1 (by decide),
   (C8_skipped_rows_and_row_numbers (parse_docx ["x".toList]).1
      (parse_docx ["x".toList]).2 0 [] 6
      [["a".toList, "b".toList, "c".toList, "".toList, "e".toList, "L1:T0".toList],
       ["a".toList, "b".toList, "c".toList, "x".toList, "e".toList, "L1:T0".toList]]
      ((List.enumFrom 0
        [["a".toList, "b".toList, "c".toList, "".toList, "e".toList, "L1:T0".toList],
         ["a".toList, "b".toList, "c".toList, "x".toList, "e".toList, "L1:T0".toList]]).filterMap
        (fun p => processRow p.1 p.2 (parse_docx ["x".toList]).1 (parse_docx ["x".toList]).2))
      (mkResult 1 ("x".toList) ("L1:T0".toList)
        (parse_docx ["x".toList]).1 (parse_docx ["x".toList]).2)).2.2
     (by rfl) (by decide)⟩

/-! ## Claim C9 -/

/-- **C9**: a row whose location reference is malformed or addresses an
absent line — i.e. whose reference resolves to the empty list — is
recovered locally: its record carries the unresolved-location status (with
the diagnostic naming the reference) as data, with no attachments, and the
batch continues: the result list contains exactly one record per
non-skipped row, whatever each row contains.  (The embedding is a total
function: no exception escapes to the caller.) -/
theorem C9_unresolved_location_recovery (doc_data : List (Str × Str))
    (lmap : List (Nat × Str)) (index : Nat) (cells : List Str) (r : ResultItem)
    (ncols : Nat) (rows : List (List Str)) (res : List ResultItem) :
    (processRow index cells doc_data lmap = some r →
      parse_location_string (strip (cells.getD 5 "nan".toList)) lmap = [] →
        r.status = errStatus ∧ r.highlighted = none ∧ r.doc_text = none ∧
        r.details = unresolvedDetails (strip (cells.getD 5 "nan".toList))) ∧
    (run_checker ncols rows doc_data lmap = some res →
      res.length = (rows.filter (fun c => !skipCond c)).length) := by
  constructor
  · intro hp hloc
    unfold processRow at hp
    split at hp
    · exact absurd hp (by simp)
    · injection hp with hp
      rw [← hp]
      unfold mkResult
      rw [hloc]
      dsimp only
      rw [if_pos (by simp [expandKeys])]
      exact ⟨rfl, rfl, rfl, rfl⟩
  · intro hrun
    unfold run_checker at hrun
    split at hrun
    · exact absurd hrun (by simp)
    · injection hrun with hrun
      rw [← hrun]
      exact enumFrom_filterMap_processRow_length doc_data lmap rows 0

set_option maxRecDepth 10000 in
set_option maxHeartbeats 1000000 in
/-- **C9** (witness): the reference `"garbage"` fails the grammar; its row
is reported with the unresolved-location status and no attachments, and a
two-row batch containing it still yields two records. -/
theorem C9_unresolved_location_recovery_witness :
    ((mkResult 0 ("x".toList) ("garbage".toList)
        (parse_docx ["x".toList]).1 (parse_docx ["x".toList]).2).status = errStatus ∧
     (mkResult 0 ("x".toList) ("garbage".toList)
        (parse_docx ["x".toList]).1 (parse_docx ["x".toList]).2).highlighted = none ∧
     (mkResult 0 ("x".toList) ("garbage".toList)
        (parse_docx ["x".toList]).1 (parse_docx ["x".toList]).2).doc_text = none ∧
     (mkResult 0 ("x".toList) ("garbage".toList)
        (parse_docx ["x".toList]).1 (parse_docx ["x".toList]).2).details
       = unresolvedDetails (strip
          ((["a".toList, "b".toList, "c".toList, "x".toList, "e".toList,
             "garbage".toList]).getD 5 "nan".toList))) ∧
    (((List.enumFrom 0
        [["a".toList, "b".toList, "c".toList, "x".toList, "e".toList, "garbage".toList],
         ["a".toList, "b".toList, "c".toList, "x".toList, "e".toList, "L1:T0".toList]]).filterMap
        (fun p => processRow p.1 p.2 (parse_docx ["x".toList]).1
          (parse_docx ["x".toList]).2)).length
      = (([["a".toList, "b".toList, "c".toList, "x".toList, "e".toList, "garbage".toList],
          ["a".toList, "b".toList, "c".toList, "x".toList, "e".toList, "L1:T0".toList]] :
            List (List Str)).filter (fun c => !skipCond c)).length) := by
  constructor
  · have h := (C9_unresolved_location_recovery (parse_docx ["x".toList]).1
      (parse_docx ["x".toList]).2 0
      ["a".toList, "b".toList, "c".toList, "x".toList, "e".toList, "garbage".toList]
      (mkResult 0 ("x".toList) ("garbage".toList)
        (parse_docx ["x".toList]).1 (parse_docx ["x".toList]).2)
      6 [] []).1 (by decide) (by decide)
    exact h
  · exact (C9_unresolved_location_recovery (parse_docx ["x".toList]).1
      (parse_docx ["x".toList]).2 0 []
      (mkResult 0 ("x".toList) ("garbage".toList)
        (parse_docx ["x".toList]).1 (parse_docx ["x".toList]).2) 6
      [["a".toList, "b".toList, "c".toList, "x".toList, "e".toList, "garbage".toList],
       ["a".toList, "b".toList, "c".toList, "x".toList, "e".toList, "L1:T0".toList]]
      ((List.enumFrom 0
        [["a".toList, "b".toList, "c".toList, "x".toList, "e".toList, "garbage".toList],
         ["a".toList, "b".toList, "c".toList, "x".toList, "e".toList, "L1:T0".toList]]).filterMap
        (fun p => processRow p.1 p.2 (parse_docx ["x".toList]).1
          (parse_docx ["x".toList]).2))).2 (by rfl)

end QACheck
